import Mathlib

set_option autoImplicit false

/-!
Shallow embedding of the microblog service registry
(`src/registry_service/app.py` and `src/registry_service/discovery.py`).

Timestamps (`time.time()` values and their ISO-string copies) are modelled as
integers; only differences and comparisons of timestamps matter to the code.
`uuid4()` is modelled as a fresh-id supply: the registry state carries a
counter `nextId`, and each registration consumes the current counter value as
its `instance_id`.  The Python in-memory dict `_registry` (insertion-ordered)
is modelled as an association list.
-/

namespace Microblog.Registry

abbrev Time := Int

/-- Configuration constant from app.py line 34. -/
def HEARTBEAT_TIMEOUT : Time := 30

/-- Configuration constant from app.py line 35. -/
def CLEANUP_INTERVAL : Time := 10

/-- Stored instance record, app.py lines 108-116.  The two `_iso` fields are
the ISO-string copies of the two numeric timestamps; the code always writes
them together with their numeric counterpart, so they are modelled as the
same integer timestamp. -/
structure ServiceInstance where
  instance_id : Nat
  service_name : String
  base_url : String
  registered_at : Time
  last_heartbeat : Time
  registered_at_iso : Time
  last_heartbeat_iso : Time
  deriving Repr, DecidableEq

/-- The in-memory store `_registry : Dict[str, List[Dict]]` (app.py line 28),
as an insertion-ordered association list. -/
abbrev Registry := List (String × List ServiceInstance)

/-- The freshness predicate `current_time - inst["last_heartbeat"] < HEARTBEAT_TIMEOUT`
used at app.py lines 80, 218, 257, 292. -/
def isActive (now : Time) (inst : ServiceInstance) : Bool :=
  now - inst.last_heartbeat < HEARTBEAT_TIMEOUT

/-- Dict key lookup `_registry[service_name]` / `service_name in _registry`. -/
def lookupReg : Registry → String → Option (List ServiceInstance)
  | [], _ => none
  | (s, insts) :: rest, name => if s = name then some insts else lookupReg rest name

/-- Append `inst` to the sequence of the (first) entry with key `name`. -/
def appendTo : Registry → String → ServiceInstance → Registry
  | [], _, _ => []
  | (s, insts) :: rest, name, inst =>
    if s = name then (s, insts ++ [inst]) :: rest
    else (s, insts) :: appendTo rest name inst

/-- Registry mutation of `register_service`, app.py lines 118-121:
if the key is absent a fresh empty sequence is created (at the end of the
dict, in insertion order), then the instance is appended. -/
def addInstance (reg : Registry) (name : String) (inst : ServiceInstance) : Registry :=
  match lookupReg reg name with
  | none => appendTo (reg ++ [(name, [])]) name inst
  | some _ => appendTo reg name inst

/-- Whole registry process state: the store plus the fresh-id supply that
models `uuid4()` (app.py line 104). -/
structure RegistryState where
  registry : Registry
  nextId : Nat
  deriving Repr, DecidableEq

/-- The instance record built at app.py lines 108-116. -/
def mkInstance (id : Nat) (name url : String) (now : Time) : ServiceInstance :=
  { instance_id := id
    service_name := name
    base_url := url
    registered_at := now
    last_heartbeat := now
    registered_at_iso := now
    last_heartbeat_iso := now }

/-- Handler `register_service` (app.py lines 96-129): allocate a fresh id,
build the instance with `last_heartbeat = now`, append it to the service's
sequence (creating the sequence if absent), and return the new instance. -/
def register_service (st : RegistryState) (name url : String) (now : Time) :
    RegistryState × ServiceInstance :=
  let inst := mkInstance st.nextId name url now
  ({ registry := addInstance st.registry name inst, nextId := st.nextId + 1 }, inst)

/-- Helper: the first list is an initial segment of the second. -/
def startsWithChars : List Char → List Char → Bool
  | [], _ => true
  | _ :: _, [] => false
  | c :: cs, d :: ds => c = d && startsWithChars cs ds

/-- Validation performed by the request model `ServiceRegistration`
(app.py lines 38-41): `base_url : HttpUrl`.  Models the pydantic `HttpUrl`
type, a library dependency of app.py: a value is accepted only if it is an
absolute URL with scheme `http` or `https` and a nonempty remainder;
anything else is rejected with a 422 validation error before the handler
runs. -/
def isValidHttpUrl (u : String) : Bool :=
  (startsWithChars ("http://").data u.data && decide (7 < u.data.length)) ||
    (startsWithChars ("https://").data u.data && decide (8 < u.data.length))

/-- The `/register` endpoint as seen by a client: pydantic validates the
request body (`base_url : HttpUrl`, app.py line 41) and only then runs the
`register_service` handler. -/
def register_endpoint (st : RegistryState) (name url : String) (now : Time) :
    Except Unit (RegistryState × ServiceInstance) :=
  if isValidHttpUrl url then Except.ok (register_service st name url now)
  else Except.error ()

/-- Inner loop of `heartbeat` (app.py lines 147-152): update the first
instance of the sequence whose id matches, report whether one was found. -/
def heartbeatInstances (id : Nat) (now : Time) :
    List ServiceInstance → List ServiceInstance × Bool
  | [] => ([], false)
  | inst :: rest =>
    if inst.instance_id = id then
      ({ inst with last_heartbeat := now, last_heartbeat_iso := now } :: rest, true)
    else
      let r := heartbeatInstances id now rest
      (inst :: r.1, r.2)

/-- Handler `heartbeat` (app.py lines 132-162): scan services in order,
update the first matching instance's `last_heartbeat` in place, stop at the
first hit; the Bool is the `found` flag (`false` becomes the 404 response). -/
def heartbeat (id : Nat) (now : Time) : Registry → Registry × Bool
  | [] => ([], false)
  | (s, insts) :: rest =>
    let r := heartbeatInstances id now insts
    if r.2 then ((s, r.1) :: rest, true)
    else
      let r2 := heartbeat id now rest
      ((s, r.1) :: r2.1, r2.2)

/-- Handler `deregister_service` (app.py lines 165-196): for each service in
order, replace its sequence by the id-filtered one; if the filtered sequence
is nonempty and the original contained the id, stop found; if the filtered
sequence is empty the key is deleted, and if the original contained the id,
stop found; otherwise continue with the next key.  The Bool is the `found`
flag (`false` becomes the 404 response). -/
def deregister_service (id : Nat) : Registry → Registry × Bool
  | [] => ([], false)
  | (s, insts) :: rest =>
    let filtered := insts.filter (fun inst => inst.instance_id != id)
    let hasId := insts.any (fun inst => inst.instance_id == id)
    if filtered.isEmpty then
      if hasId then (rest, true)
      else deregister_service id rest
    else
      if hasId then ((s, filtered) :: rest, true)
      else
        let r := deregister_service id rest
        ((s, filtered) :: r.1, r.2)

/-- Handler `get_service_instances` (app.py lines 199-243): 404 when the name
is unknown, otherwise filter the stored sequence by freshness, 404 when no
instance is active, otherwise return the active subsequence.  The second
component is the store after the call (the handler never assigns to it). -/
def get_service_instances (reg : Registry) (name : String) (now : Time) :
    Except Unit (List ServiceInstance) × Registry :=
  match lookupReg reg name with
  | none => (Except.error (), reg)
  | some insts =>
    let active := insts.filter (isActive now)
    if active.isEmpty then (Except.error (), reg)
    else (Except.ok active, reg)

/-- One pass of the sweeper `cleanup_stale_instances` (app.py lines 68-87):
for every service, keep only the instances whose heartbeat is fresh; delete
the service key when none remains. -/
def cleanup_stale_instances (now : Time) : Registry → Registry
  | [] => []
  | (s, insts) :: rest =>
    let active := insts.filter (isActive now)
    if active.isEmpty then cleanup_stale_instances now rest
    else (s, active) :: cleanup_stale_instances now rest

/-! Discovery resolver, src/registry_service/discovery.py. -/

/-- Outcome of the HTTP GET against the registry, as the discovery code
observes it: a success response carrying the instance list, a non-success
status (for which `raise_for_status` raises `HTTPStatusError` with that
code), or any other exception (timeout, connection refused, ...). -/
inductive HttpResult where
  | ok (instances : List ServiceInstance)
  | status (code : Nat)
  | exn
  deriving Repr, DecidableEq

/-- `get_service_url` (discovery.py lines 15-43) applied to the outcome of
its HTTP query: an empty instance list gives `none`, otherwise the first
instance's `base_url`; an `HTTPStatusError` with code 404 gives `none` and
any other status code is re-raised (`Except.error`); every other exception
gives `none`. -/
def get_service_url (r : HttpResult) : Except Nat (Option String) :=
  match r with
  | HttpResult.ok insts =>
    match insts with
    | [] => Except.ok none
    | inst :: _ => Except.ok (some inst.base_url)
  | HttpResult.status code =>
    if code = 404 then Except.ok none else Except.error code
  | HttpResult.exn => Except.ok none

/-- `get_service_url_sync` (discovery.py lines 46-69): same body as
`get_service_url`, written with the synchronous client. -/
def get_service_url_sync (r : HttpResult) : Except Nat (Option String) :=
  match r with
  | HttpResult.ok insts =>
    match insts with
    | [] => Except.ok none
    | inst :: _ => Except.ok (some inst.base_url)
  | HttpResult.status code =>
    if code = 404 then Except.ok none else Except.error code
  | HttpResult.exn => Except.ok none

/-- The response the registry's `/services/{name}` endpoint produces for a
discovery query: a 404 status when the handler raises `HTTPException`, a
success body with the active instances otherwise. -/
def registryHttpResponse (reg : Registry) (name : String) (now : Time) : HttpResult :=
  match (get_service_instances reg name now).1 with
  | Except.error _ => HttpResult.status 404
  | Except.ok l => HttpResult.ok l

/-- End-to-end resolution: `get_service_url` against a registry that answers
the query normally (success or 404). -/
def resolve (reg : Registry) (name : String) (now : Time) : Except Nat (Option String) :=
  get_service_url (registryHttpResponse reg name now)

/-! Operation traces over the registry state. -/

/-- One registry operation, for stating lifetime properties. -/
inductive Op where
  | registerOp (name url : String) (now : Time)
  | heartbeatOp (id : Nat) (now : Time)
  | deregisterOp (id : Nat)
  | sweepOp (now : Time)
  deriving Repr, DecidableEq

/-- Effect of one operation on the registry state. -/
def applyOp (st : RegistryState) : Op → RegistryState
  | Op.registerOp name url now => (register_service st name url now).1
  | Op.heartbeatOp id now => { st with registry := (heartbeat id now st.registry).1 }
  | Op.deregisterOp id => { st with registry := (deregister_service id st.registry).1 }
  | Op.sweepOp now => { st with registry := cleanup_stale_instances now st.registry }

/-- Run a sequence of operations. -/
def runOps (st : RegistryState) : List Op → RegistryState
  | [] => st
  | op :: ops => runOps (applyOp st op) ops

/-- The instance ids handed out by the register calls of a trace, in order. -/
def issuedIds (st : RegistryState) : List Op → List Nat
  | [] => []
  | op :: ops =>
    match op with
    | Op.registerOp name url now =>
      (register_service st name url now).2.instance_id :: issuedIds (applyOp st op) ops
    | _ => issuedIds (applyOp st op) ops

/-- All instance ids present in the store. -/
def idsOf : Registry → List Nat
  | [] => []
  | (_, insts) :: rest => insts.map (fun inst => inst.instance_id) ++ idsOf rest

/-- Spec §3 invariant: no service key maps to an empty sequence. -/
def NoEmptySeq (reg : Registry) : Prop :=
  ∀ p ∈ reg, p.2 ≠ ([] : List ServiceInstance)

/-- The dict keys are distinct (true of any Python dict). -/
def KeysNodup (reg : Registry) : Prop :=
  (reg.map Prod.fst).Nodup

/-- Every stored id was drawn from the fresh-id supply. -/
def IdsBounded (st : RegistryState) : Prop :=
  ∀ i ∈ idsOf st.registry, i < st.nextId

/-- All instances resident in the store, across all services. -/
def allInstances : Registry → List ServiceInstance
  | [] => []
  | (_, insts) :: rest => insts ++ allInstances rest

/-! Concrete values used by the closed witness and counterexample theorems. -/

def usersKey : String := "users"

def pollsKey : String := "polls"

def urlA : String := "http://a"

def urlB : String := "http://b"

def badUrl : String := "ftp://example.com"

/-- A demo stored instance. -/
def demoInst (id : Nat) (hb : Time) : ServiceInstance :=
  mkInstance id usersKey urlA hb

/-- A demo registry holding one `users` instance with id 1. -/
def demoReg : Registry := [(usersKey, [demoInst 1 0])]

/-- A demo whole-process state consistent with `demoReg`. -/
def demoState : RegistryState := { registry := demoReg, nextId := 2 }

/-- A pathological store holding a service key with an empty sequence (no
reachable state looks like this; it witnesses why the no-empty-sequence
invariant matters). -/
def emptySeqReg : Registry := [(usersKey, [])]

/-! Basic lemmas about the store helpers. -/

theorem isActive_iff (now : Time) (inst : ServiceInstance) :
    isActive now inst = true ↔ now - inst.last_heartbeat < HEARTBEAT_TIMEOUT := by
  simp [isActive]

theorem lookupReg_eq_none_of_not_mem (reg : Registry) (name : String)
    (h : name ∉ reg.map Prod.fst) : lookupReg reg name = none := by
  induction reg with
  | nil => rfl
  | cons p rest ih =>
    obtain ⟨s, insts⟩ := p
    simp only [List.map_cons, List.mem_cons, not_or] at h
    simp only [lookupReg]
    rw [if_neg (fun hs => h.1 hs.symm)]
    exact ih h.2

theorem mem_keys_of_lookupReg_eq_some (reg : Registry) (name : String)
    (l : List ServiceInstance) (h : lookupReg reg name = some l) :
    name ∈ reg.map Prod.fst := by
  induction reg with
  | nil => simp [lookupReg] at h
  | cons p rest ih =>
    obtain ⟨s, insts⟩ := p
    by_cases hs : s = name
    · subst hs; simp
    · simp only [lookupReg, if_neg hs] at h
      simp [ih h]

theorem lookupReg_append (a b : Registry) (name : String) :
    lookupReg (a ++ b) name =
      match lookupReg a name with
      | some l => some l
      | none => lookupReg b name := by
  induction a with
  | nil => rfl
  | cons p rest ih =>
    obtain ⟨s, insts⟩ := p
    by_cases hs : s = name <;> simp [lookupReg, hs, ih]

theorem appendTo_keys (reg : Registry) (name : String) (inst : ServiceInstance) :
    (appendTo reg name inst).map Prod.fst = reg.map Prod.fst := by
  induction reg with
  | nil => rfl
  | cons p rest ih =>
    obtain ⟨s, insts⟩ := p
    by_cases hs : s = name <;> simp [appendTo, hs, ih]

theorem lookupReg_appendTo_self (reg : Registry) (name : String) (inst : ServiceInstance) :
    lookupReg (appendTo reg name inst) name =
      (lookupReg reg name).map (fun l => l ++ [inst]) := by
  induction reg with
  | nil => rfl
  | cons p rest ih =>
    obtain ⟨s, insts⟩ := p
    by_cases hs : s = name <;> simp [appendTo, lookupReg, hs, ih]

theorem lookupReg_appendTo_other (reg : Registry) (name s : String) (inst : ServiceInstance)
    (hs : s ≠ name) :
    lookupReg (appendTo reg name inst) s = lookupReg reg s := by
  induction reg with
  | nil => rfl
  | cons p rest ih =>
    obtain ⟨s0, insts⟩ := p
    by_cases h0 : s0 = name
    · subst h0
      have hne : s0 ≠ s := fun h => hs h.symm
      simp [appendTo, lookupReg, hne]
    · simp only [appendTo, if_neg h0]
      by_cases h1 : s0 = s <;> simp [lookupReg, h1, ih]

theorem appendTo_append_new (reg : Registry) (name : String) (inst : ServiceInstance)
    (h : lookupReg reg name = none) :
    appendTo (reg ++ [(name, [])]) name inst = reg ++ [(name, [inst])] := by
  induction reg with
  | nil => simp [appendTo]
  | cons p rest ih =>
    obtain ⟨s, insts⟩ := p
    simp only [lookupReg] at h
    by_cases hs : s = name
    · rw [if_pos hs] at h; cases h
    · rw [if_neg hs] at h
      simp [appendTo, hs, ih h]

theorem lookupReg_addInstance_self (reg : Registry) (name : String) (inst : ServiceInstance) :
    lookupReg (addInstance reg name inst) name =
      some ((lookupReg reg name).getD [] ++ [inst]) := by
  cases h : lookupReg reg name with
  | none =>
    simp only [addInstance, h]
    rw [appendTo_append_new reg name inst h, lookupReg_append, h]
    simp [lookupReg]
  | some l =>
    simp only [addInstance, h]
    rw [lookupReg_appendTo_self, h]
    rfl

theorem lookupReg_addInstance_other (reg : Registry) (name s : String)
    (inst : ServiceInstance) (hs : s ≠ name) :
    lookupReg (addInstance reg name inst) s = lookupReg reg s := by
  cases h : lookupReg reg name with
  | none =>
    simp only [addInstance, h]
    rw [appendTo_append_new reg name inst h, lookupReg_append]
    cases h2 : lookupReg reg s with
    | some l => rfl
    | none => simp [lookupReg, Ne.symm hs]
  | some l =>
    simp only [addInstance, h]
    exact lookupReg_appendTo_other reg name s inst hs

/-! Lemmas about heartbeat. -/

theorem heartbeatInstances_ids (id : Nat) (now : Time) (l : List ServiceInstance) :
    (heartbeatInstances id now l).1.map (fun inst => inst.instance_id) =
      l.map (fun inst => inst.instance_id) := by
  induction l with
  | nil => rfl
  | cons inst rest ih =>
    by_cases h : inst.instance_id = id <;> simp [heartbeatInstances, h, ih]

theorem heartbeatInstances_absent (id : Nat) (now : Time) (l : List ServiceInstance)
    (h : ∀ inst ∈ l, inst.instance_id ≠ id) :
    heartbeatInstances id now l = (l, false) := by
  induction l with
  | nil => rfl
  | cons inst rest ih =>
    have h1 : inst.instance_id ≠ id := h inst (List.mem_cons_self _ _)
    simp [heartbeatInstances, h1, ih (fun i hi => h i (List.mem_cons_of_mem _ hi))]

theorem heartbeatInstances_found_iff (id : Nat) (now : Time) (l : List ServiceInstance) :
    (heartbeatInstances id now l).2 = true ↔
      id ∈ l.map (fun inst => inst.instance_id) := by
  induction l with
  | nil => simp [heartbeatInstances]
  | cons inst rest ih =>
    by_cases h : inst.instance_id = id
    · simp [heartbeatInstances, h]
    · simp [heartbeatInstances, h, ih, Ne.symm h]

theorem heartbeat_absent (id : Nat) (now : Time) (reg : Registry)
    (h : id ∉ idsOf reg) : heartbeat id now reg = (reg, false) := by
  induction reg with
  | nil => rfl
  | cons p rest ih =>
    obtain ⟨s, insts⟩ := p
    simp only [idsOf, List.mem_append, not_or] at h
    have h1 : ∀ inst ∈ insts, inst.instance_id ≠ id := by
      intro inst hi he
      exact h.1 (List.mem_map.2 ⟨inst, hi, he⟩)
    simp [heartbeat, heartbeatInstances_absent id now insts h1, ih h.2]

theorem heartbeat_found_iff (id : Nat) (now : Time) (reg : Registry) :
    (heartbeat id now reg).2 = true ↔ id ∈ idsOf reg := by
  induction reg with
  | nil => simp [heartbeat, idsOf]
  | cons p rest ih =>
    obtain ⟨s, insts⟩ := p
    rcases Bool.eq_false_or_eq_true (heartbeatInstances id now insts).2 with h | h
    · have hm := (heartbeatInstances_found_iff id now insts).1 h
      simp [heartbeat, h, idsOf, hm]
    · have hm : id ∉ insts.map (fun inst => inst.instance_id) := by
        rw [← heartbeatInstances_found_iff id now insts, h]
        simp
      simp [heartbeat, h, idsOf, ih, hm]

theorem idsOf_heartbeat (id : Nat) (now : Time) (reg : Registry) :
    idsOf (heartbeat id now reg).1 = idsOf reg := by
  induction reg with
  | nil => rfl
  | cons p rest ih =>
    obtain ⟨s, insts⟩ := p
    rcases Bool.eq_false_or_eq_true (heartbeatInstances id now insts).2 with h | h <;>
      simp [heartbeat, h, idsOf, heartbeatInstances_ids, ih]

/-! Lemmas about deregister. -/

theorem anyId_iff (insts : List ServiceInstance) (id : Nat) :
    (insts.any (fun inst => inst.instance_id == id) = true) ↔
      id ∈ insts.map (fun inst => inst.instance_id) := by
  simp only [List.any_eq_true, List.mem_map, beq_iff_eq]

theorem deregister_absent (id : Nat) (reg : Registry)
    (hne : NoEmptySeq reg) (h : id ∉ idsOf reg) :
    deregister_service id reg = (reg, false) := by
  induction reg with
  | nil => rfl
  | cons p rest ih =>
    obtain ⟨s, insts⟩ := p
    simp only [idsOf, List.mem_append, not_or] at h
    have hno : ∀ inst ∈ insts, (fun inst => inst.instance_id != id) inst = true := by
      intro inst hi
      simp only [bne_iff_ne, ne_eq]
      exact fun he => h.1 (List.mem_map.2 ⟨inst, hi, he⟩)
    have hfil : insts.filter (fun inst => inst.instance_id != id) = insts :=
      List.filter_eq_self.2 hno
    have hany : insts.any (fun inst => inst.instance_id == id) = false := by
      cases hb : insts.any (fun inst => inst.instance_id == id) with
      | false => rfl
      | true => exact absurd ((anyId_iff insts id).1 hb) h.1
    have hinsts : insts ≠ [] := hne (s, insts) (List.mem_cons_self _ _)
    have hemp : insts.isEmpty = false := by
      cases hb : insts.isEmpty with
      | false => rfl
      | true => exact absurd (List.isEmpty_iff.1 hb) hinsts
    have hrest : NoEmptySeq rest := fun q hq => hne q (List.mem_cons_of_mem _ hq)
    simp [deregister_service, hfil, hemp, hany, ih hrest h.2]

theorem deregister_found_iff (id : Nat) (reg : Registry) :
    (deregister_service id reg).2 = true ↔ id ∈ idsOf reg := by
  induction reg with
  | nil => simp [deregister_service, idsOf]
  | cons p rest ih =>
    obtain ⟨s, insts⟩ := p
    rcases Bool.eq_false_or_eq_true (insts.any (fun inst => inst.instance_id == id))
      with ha | ha
    · have hm := (anyId_iff insts id).1 ha
      rcases Bool.eq_false_or_eq_true
          ((insts.filter (fun inst => inst.instance_id != id)).isEmpty) with hf | hf <;>
        simp [deregister_service, ha, hf, idsOf, hm]
    · have hm : id ∉ insts.map (fun inst => inst.instance_id) := by
        intro hmem
        rw [(anyId_iff insts id).2 hmem] at ha
        cases ha
      rcases Bool.eq_false_or_eq_true
          ((insts.filter (fun inst => inst.instance_id != id)).isEmpty) with hf | hf <;>
        simp [deregister_service, ha, hf, idsOf, hm, ih]

theorem idsOf_deregister_subset (id : Nat) (reg : Registry) :
    ∀ j ∈ idsOf (deregister_service id reg).1, j ∈ idsOf reg := by
  induction reg with
  | nil => simp [deregister_service]
  | cons p rest ih =>
    obtain ⟨s, insts⟩ := p
    intro j hj
    have hsub : ∀ k, k ∈ (insts.filter (fun inst => inst.instance_id != id)).map
        (fun inst => inst.instance_id) → k ∈ insts.map (fun inst => inst.instance_id) := by
      intro k hk
      obtain ⟨inst, hi, he⟩ := List.mem_map.1 hk
      exact List.mem_map.2 ⟨inst, (List.mem_filter.1 hi).1, he⟩
    rcases Bool.eq_false_or_eq_true (insts.any (fun inst => inst.instance_id == id))
      with ha | ha <;>
      rcases Bool.eq_false_or_eq_true
          ((insts.filter (fun inst => inst.instance_id != id)).isEmpty) with hf | hf <;>
      simp only [deregister_service, ha, hf, Bool.false_eq_true, if_false, if_true,
        idsOf, List.mem_append] at hj ⊢
    · exact Or.inr hj
    · rcases hj with hj | hj
      · exact Or.inl (hsub j hj)
      · exact Or.inr hj
    · exact Or.inr (ih j hj)
    · rcases hj with hj | hj
      · exact Or.inl (hsub j hj)
      · exact Or.inr (ih j hj)

theorem deregister_removes (id : Nat) (reg : Registry) (h : (idsOf reg).Nodup) :
    id ∉ idsOf (deregister_service id reg).1 := by
  induction reg with
  | nil => simp [deregister_service, idsOf]
  | cons p rest ih =>
    obtain ⟨s, insts⟩ := p
    simp only [idsOf] at h
    rw [List.nodup_append] at h
    obtain ⟨h1, h2, hdisj⟩ := h
    have hfilterNoId :
        id ∉ (insts.filter (fun inst => inst.instance_id != id)).map
          (fun inst => inst.instance_id) := by
      intro hm
      obtain ⟨inst, hi, he⟩ := List.mem_map.1 hm
      have hb := (List.mem_filter.1 hi).2
      rw [bne_iff_ne] at hb
      exact hb he
    rcases Bool.eq_false_or_eq_true (insts.any (fun inst => inst.instance_id == id))
      with ha | ha <;>
      rcases Bool.eq_false_or_eq_true
          ((insts.filter (fun inst => inst.instance_id != id)).isEmpty) with hf | hf <;>
      simp only [deregister_service, ha, hf, Bool.false_eq_true, if_false, if_true,
        idsOf, List.mem_append, not_or]
    · exact fun hm => hdisj ((anyId_iff insts id).1 ha) hm
    · exact ⟨hfilterNoId, fun hm => hdisj ((anyId_iff insts id).1 ha) hm⟩
    · exact ih h2
    · exact ⟨hfilterNoId, ih h2⟩

/-! Lemmas about the sweeper. -/

theorem cleanup_keys_subset (now : Time) (reg : Registry) :
    ∀ s ∈ (cleanup_stale_instances now reg).map Prod.fst, s ∈ reg.map Prod.fst := by
  induction reg with
  | nil => simp [cleanup_stale_instances]
  | cons p rest ih =>
    obtain ⟨s0, insts⟩ := p
    intro s hs
    rcases Bool.eq_false_or_eq_true ((insts.filter (isActive now)).isEmpty) with hf | hf <;>
      simp only [cleanup_stale_instances, hf, Bool.false_eq_true, if_false, if_true,
        List.map_cons, List.mem_cons] at hs ⊢
    · exact Or.inr (ih s hs)
    · rcases hs with hs | hs
      · exact Or.inl hs
      · exact Or.inr (ih s hs)

theorem lookupReg_cleanup (now : Time) (reg : Registry) (h : KeysNodup reg) (s : String) :
    lookupReg (cleanup_stale_instances now reg) s =
      match lookupReg reg s with
      | none => none
      | some insts =>
        if (insts.filter (isActive now)).isEmpty then none
        else some (insts.filter (isActive now)) := by
  induction reg with
  | nil => rfl
  | cons p rest ih =>
    obtain ⟨s0, insts⟩ := p
    simp only [KeysNodup, List.map_cons, List.nodup_cons] at h
    have h0 : s0 ∉ rest.map Prod.fst := h.1
    have hrest : KeysNodup rest := h.2
    by_cases hs : s0 = s
    · subst hs
      rcases Bool.eq_false_or_eq_true ((insts.filter (isActive now)).isEmpty) with hf | hf
      · have hnone : lookupReg (cleanup_stale_instances now rest) s0 = none :=
          lookupReg_eq_none_of_not_mem _ _ (fun hm => h0 (cleanup_keys_subset now rest _ hm))
        simp [cleanup_stale_instances, hf, lookupReg, hnone]
      · simp [cleanup_stale_instances, hf, lookupReg]
    · rcases Bool.eq_false_or_eq_true ((insts.filter (isActive now)).isEmpty) with hf | hf <;>
        simp [cleanup_stale_instances, hf, lookupReg, hs, ih hrest]

theorem allInstances_cleanup_active (now : Time) (reg : Registry) :
    ∀ inst ∈ allInstances (cleanup_stale_instances now reg), isActive now inst = true := by
  induction reg with
  | nil => simp [cleanup_stale_instances, allInstances]
  | cons p rest ih =>
    obtain ⟨s0, insts⟩ := p
    intro inst hi
    rcases Bool.eq_false_or_eq_true ((insts.filter (isActive now)).isEmpty) with hf | hf <;>
      simp only [cleanup_stale_instances, hf, Bool.false_eq_true, if_false, if_true,
        allInstances, List.mem_append] at hi
    · exact ih inst hi
    · rcases hi with hi | hi
      · exact (List.mem_filter.1 hi).2
      · exact ih inst hi

theorem allInstances_cleanup_subset (now : Time) (reg : Registry) :
    ∀ inst ∈ allInstances (cleanup_stale_instances now reg), inst ∈ allInstances reg := by
  induction reg with
  | nil => simp [cleanup_stale_instances, allInstances]
  | cons p rest ih =>
    obtain ⟨s0, insts⟩ := p
    intro inst hi
    rcases Bool.eq_false_or_eq_true ((insts.filter (isActive now)).isEmpty) with hf | hf <;>
      simp only [cleanup_stale_instances, hf, Bool.false_eq_true, if_false, if_true,
        allInstances, List.mem_append] at hi ⊢
    · exact Or.inr (ih inst hi)
    · rcases hi with hi | hi
      · exact Or.inl (List.mem_filter.1 hi).1
      · exact Or.inr (ih inst hi)

/-! Lemmas relating ids, instances and the operations. -/

theorem idsOf_eq_map_allInstances (reg : Registry) :
    idsOf reg = (allInstances reg).map (fun inst => inst.instance_id) := by
  induction reg with
  | nil => rfl
  | cons p rest ih =>
    obtain ⟨s, insts⟩ := p
    simp [idsOf, allInstances, ih]

theorem idsOf_cleanup_subset (now : Time) (reg : Registry) :
    ∀ j ∈ idsOf (cleanup_stale_instances now reg), j ∈ idsOf reg := by
  intro j hj
  rw [idsOf_eq_map_allInstances] at hj ⊢
  obtain ⟨inst, hi, he⟩ := List.mem_map.1 hj
  exact List.mem_map.2 ⟨inst, allInstances_cleanup_subset now reg inst hi, he⟩

theorem idsOf_append (a b : Registry) : idsOf (a ++ b) = idsOf a ++ idsOf b := by
  induction a with
  | nil => rfl
  | cons p rest ih =>
    obtain ⟨s, insts⟩ := p
    simp [idsOf, ih]

theorem idsOf_appendTo_mem (reg : Registry) (name : String) (inst : ServiceInstance) :
    ∀ j ∈ idsOf (appendTo reg name inst), j ∈ idsOf reg ∨ j = inst.instance_id := by
  induction reg with
  | nil => simp [appendTo, idsOf]
  | cons p rest ih =>
    obtain ⟨s, insts⟩ := p
    intro j hj
    by_cases hs : s = name <;>
      simp only [appendTo, hs, if_true, if_false, idsOf, List.mem_append, List.map_append,
        ite_true, ite_false] at hj ⊢
    · rcases hj with hj | hj
      · rcases hj with hj | hj
        · exact Or.inl (Or.inl hj)
        · simp only [List.map_cons, List.map_nil, List.mem_singleton] at hj
          exact Or.inr hj
      · exact Or.inl (Or.inr hj)
    · rcases hj with hj | hj
      · exact Or.inl (Or.inl hj)
      · rcases ih j hj with hh | hh
        · exact Or.inl (Or.inr hh)
        · exact Or.inr hh

theorem idsOf_addInstance_mem (reg : Registry) (name : String) (inst : ServiceInstance) :
    ∀ j ∈ idsOf (addInstance reg name inst), j ∈ idsOf reg ∨ j = inst.instance_id := by
  intro j hj
  cases h : lookupReg reg name with
  | none =>
    rw [addInstance, h, appendTo_append_new reg name inst h, idsOf_append] at hj
    rw [List.mem_append] at hj
    rcases hj with hj | hj
    · exact Or.inl hj
    · simp only [idsOf, List.map_cons, List.map_nil, List.mem_append, List.mem_singleton,
        List.not_mem_nil, or_false] at hj
      exact Or.inr hj
  | some l =>
    rw [addInstance, h] at hj
    exact idsOf_appendTo_mem reg name inst j hj

theorem mem_idsOf_of_lookup (reg : Registry) (name : String) (insts : List ServiceInstance)
    (h : lookupReg reg name = some insts) :
    ∀ inst ∈ insts, inst.instance_id ∈ idsOf reg := by
  induction reg with
  | nil => cases h
  | cons p rest ih =>
    obtain ⟨s, insts0⟩ := p
    intro inst hi
    by_cases hs : s = name
    · simp only [lookupReg, hs, if_true, ite_true, Option.some.injEq] at h
      subst h
      simp only [idsOf, List.mem_append]
      exact Or.inl (List.mem_map.2 ⟨inst, hi, rfl⟩)
    · simp only [lookupReg, hs, if_false, ite_false] at h
      simp only [idsOf, List.mem_append]
      exact Or.inr (ih h inst hi)

/-! Preservation of the no-empty-sequence invariant. -/

theorem noEmpty_appendTo (reg : Registry) (name : String) (inst : ServiceInstance)
    (h : NoEmptySeq reg) : NoEmptySeq (appendTo reg name inst) := by
  induction reg with
  | nil => simp [appendTo, NoEmptySeq]
  | cons p rest ih =>
    obtain ⟨s, insts⟩ := p
    have hrest : NoEmptySeq rest := fun q hq => h q (List.mem_cons_of_mem _ hq)
    intro q hq
    by_cases hs : s = name <;>
      simp only [appendTo, hs, ite_true, ite_false, List.mem_cons] at hq
    · rcases hq with hq | hq
      · subst hq; simp
      · exact hrest q hq
    · rcases hq with hq | hq
      · subst hq; exact h (s, insts) (List.mem_cons_self _ _)
      · exact ih hrest q hq

theorem noEmpty_addInstance (reg : Registry) (name : String) (inst : ServiceInstance)
    (h : NoEmptySeq reg) : NoEmptySeq (addInstance reg name inst) := by
  cases hl : lookupReg reg name with
  | none =>
    rw [addInstance, hl, appendTo_append_new reg name inst hl]
    intro q hq
    rw [List.mem_append] at hq
    rcases hq with hq | hq
    · exact h q hq
    · simp only [List.mem_singleton] at hq
      subst hq; simp
  | some l =>
    rw [addInstance, hl]
    exact noEmpty_appendTo reg name inst h

theorem noEmpty_heartbeat (id : Nat) (now : Time) (reg : Registry)
    (h : NoEmptySeq reg) : NoEmptySeq (heartbeat id now reg).1 := by
  induction reg with
  | nil => simp [heartbeat, NoEmptySeq]
  | cons p rest ih =>
    obtain ⟨s, insts⟩ := p
    have hrest : NoEmptySeq rest := fun q hq => h q (List.mem_cons_of_mem _ hq)
    have hhead : insts ≠ [] := h (s, insts) (List.mem_cons_self _ _)
    have hne : (heartbeatInstances id now insts).1 ≠ [] := by
      intro hnil
      apply hhead
      have := heartbeatInstances_ids id now insts
      rw [hnil] at this
      exact List.map_eq_nil_iff.1 this.symm
    intro q hq
    rcases Bool.eq_false_or_eq_true (heartbeatInstances id now insts).2 with hf | hf <;>
      simp only [heartbeat, hf, Bool.false_eq_true, if_true, if_false, ite_true, ite_false,
        List.mem_cons] at hq
    · rcases hq with hq | hq
      · subst hq; exact hne
      · exact hrest q hq
    · rcases hq with hq | hq
      · subst hq; exact hne
      · exact ih hrest q hq

theorem noEmpty_deregister (id : Nat) (reg : Registry)
    (h : NoEmptySeq reg) : NoEmptySeq (deregister_service id reg).1 := by
  induction reg with
  | nil => simp [deregister_service, NoEmptySeq]
  | cons p rest ih =>
    obtain ⟨s, insts⟩ := p
    have hrest : NoEmptySeq rest := fun q hq => h q (List.mem_cons_of_mem _ hq)
    intro q hq
    rcases Bool.eq_false_or_eq_true (insts.any (fun inst => inst.instance_id == id))
      with ha | ha <;>
      rcases Bool.eq_false_or_eq_true
          ((insts.filter (fun inst => inst.instance_id != id)).isEmpty) with hf | hf <;>
      simp only [deregister_service, ha, hf, Bool.false_eq_true, if_false, if_true,
        List.mem_cons] at hq
    · exact hrest q hq
    · rcases hq with hq | hq
      · subst hq
        intro hnil
        have hnil2 : insts.filter (fun inst => inst.instance_id != id) = [] := hnil
        rw [hnil2] at hf
        simp at hf
      · exact hrest q hq
    · exact ih hrest q hq
    · rcases hq with hq | hq
      · subst hq
        intro hnil
        have hnil2 : insts.filter (fun inst => inst.instance_id != id) = [] := hnil
        rw [hnil2] at hf
        simp at hf
      · exact ih hrest q hq

theorem noEmpty_cleanup (now : Time) (reg : Registry) :
    NoEmptySeq (cleanup_stale_instances now reg) := by
  induction reg with
  | nil => simp [cleanup_stale_instances, NoEmptySeq]
  | cons p rest ih =>
    obtain ⟨s, insts⟩ := p
    intro q hq
    rcases Bool.eq_false_or_eq_true ((insts.filter (isActive now)).isEmpty) with hf | hf <;>
      simp only [cleanup_stale_instances, hf, Bool.false_eq_true, if_false, if_true,
        List.mem_cons] at hq
    · exact ih q hq
    · rcases hq with hq | hq
      · subst hq
        intro hnil
        have hnil2 : insts.filter (isActive now) = [] := hnil
        rw [hnil2] at hf
        simp at hf
      · exact ih q hq

/-! Lemmas about operation traces. -/

theorem nextId_applyOp_le (st : RegistryState) (op : Op) :
    st.nextId ≤ (applyOp st op).nextId := by
  cases op with
  | registerOp name url now => simp [applyOp, register_service]
  | heartbeatOp id now => simp [applyOp]
  | deregisterOp id => simp [applyOp]
  | sweepOp now => simp [applyOp]

theorem absent_applyOp (st : RegistryState) (op : Op) (id : Nat)
    (h1 : id ∉ idsOf st.registry) (h2 : id < st.nextId) :
    id ∉ idsOf (applyOp st op).registry := by
  cases op with
  | registerOp name url now =>
    intro hmem
    simp only [applyOp, register_service] at hmem
    rcases idsOf_addInstance_mem _ _ _ _ hmem with hh | hh
    · exact h1 hh
    · simp only [mkInstance] at hh
      omega
  | heartbeatOp id2 now =>
    simp only [applyOp, idsOf_heartbeat]
    exact h1
  | deregisterOp id2 =>
    intro hmem
    exact h1 (idsOf_deregister_subset _ _ _ hmem)
  | sweepOp now =>
    intro hmem
    exact h1 (idsOf_cleanup_subset _ _ _ hmem)

theorem absent_runOps (ops : List Op) : ∀ (st : RegistryState) (id : Nat),
    id ∉ idsOf st.registry → id < st.nextId → id ∉ idsOf (runOps st ops).registry := by
  induction ops with
  | nil => intro st id h1 _; exact h1
  | cons op ops ih =>
    intro st id h1 h2
    exact ih _ id (absent_applyOp st op id h1 h2)
      (lt_of_lt_of_le h2 (nextId_applyOp_le st op))

theorem issuedIds_lb (ops : List Op) : ∀ (st : RegistryState) (x : Nat),
    x ∈ issuedIds st ops → st.nextId ≤ x := by
  induction ops with
  | nil => intro st x hx; simp [issuedIds] at hx
  | cons op ops ih =>
    intro st x hx
    cases op with
    | registerOp name url now =>
      simp only [issuedIds, List.mem_cons] at hx
      rcases hx with rfl | hx
      · simp [register_service, mkInstance]
      · exact le_trans (nextId_applyOp_le st _) (ih _ x hx)
    | heartbeatOp id now =>
      simp only [issuedIds] at hx
      exact le_trans (nextId_applyOp_le st _) (ih _ x hx)
    | deregisterOp id =>
      simp only [issuedIds] at hx
      exact le_trans (nextId_applyOp_le st _) (ih _ x hx)
    | sweepOp now =>
      simp only [issuedIds] at hx
      exact le_trans (nextId_applyOp_le st _) (ih _ x hx)

theorem issuedIds_nodup (ops : List Op) : ∀ st : RegistryState,
    (issuedIds st ops).Nodup := by
  induction ops with
  | nil => intro st; simp [issuedIds]
  | cons op ops ih =>
    intro st
    cases op with
    | registerOp name url now =>
      simp only [issuedIds]
      rw [List.nodup_cons]
      refine ⟨?_, ih _⟩
      intro hmem
      have hlb := issuedIds_lb ops (applyOp st (Op.registerOp name url now)) _ hmem
      simp only [applyOp, register_service, mkInstance] at hlb
      omega
    | heartbeatOp id now => simpa [issuedIds] using ih (applyOp st (Op.heartbeatOp id now))
    | deregisterOp id => simpa [issuedIds] using ih (applyOp st (Op.deregisterOp id))
    | sweepOp now => simpa [issuedIds] using ih (applyOp st (Op.sweepOp now))

theorem listing_ids_mem (reg : Registry) (name : String) (now : Time)
    (l : List ServiceInstance)
    (h : (get_service_instances reg name now).1 = Except.ok l) :
    ∀ inst ∈ l, inst.instance_id ∈ idsOf reg := by
  intro inst hi
  unfold get_service_instances at h
  cases hl : lookupReg reg name with
  | none => rw [hl] at h; cases h
  | some insts =>
    rw [hl] at h
    rcases Bool.eq_false_or_eq_true ((insts.filter (isActive now)).isEmpty) with hf | hf <;>
      simp only [hf, Bool.false_eq_true, if_false, if_true, ite_true, ite_false] at h
    · cases h
    · have hl2 : l = insts.filter (isActive now) := by
        cases h; rfl
      subst hl2
      exact mem_idsOf_of_lookup reg name insts hl inst (List.mem_filter.1 hi).1

theorem isEmpty_append_singleton (l : List ServiceInstance) (i : ServiceInstance) :
    (l ++ [i]).isEmpty = false := by
  cases l <;> rfl

theorem get_service_instances_fst (reg : Registry) (name : String) (now : Time) :
    (get_service_instances reg name now).1 =
      match lookupReg reg name with
      | none => Except.error ()
      | some insts =>
        if (insts.filter (isActive now)).isEmpty then Except.error ()
        else Except.ok (insts.filter (isActive now)) := by
  unfold get_service_instances
  cases lookupReg reg name with
  | none => rfl
  | some insts =>
    rcases Bool.eq_false_or_eq_true ((insts.filter (isActive now)).isEmpty) with hf | hf <;>
      simp [hf]

/-! Claim theorems. -/

/-- C1 counterexample: the claim says every unexpected non-success response
(such as a 5xx) is converted to `none`, but the resolver re-raises the
`HTTPStatusError` for any non-404 status (the `raise` at discovery.py
line 41 / 67 escapes the later `except Exception` clause), so a 500
response propagates an error instead of returning `none`. -/
theorem discovery_5xx_propagates :
    get_service_url (HttpResult.status 500) = Except.error 500
    ∧ get_service_url_sync (HttpResult.status 500) = Except.error 500
    ∧ get_service_url (HttpResult.status 500) ≠ Except.ok none
    ∧ get_service_url_sync (HttpResult.status 500) ≠ Except.ok none := by
  refine ⟨rfl, rfl, ?_, ?_⟩ <;> intro h <;> exact Except.noConfusion h

/-- C1 (amended): for every service query, timeouts, connection errors and
any other exception, as well as a 404 response, are converted to `none` by
both `get_service_url` and `get_service_url_sync`; but a non-404 error
status (e.g. a 5xx) is re-raised to the caller rather than converted. -/
theorem discovery_unavailable_to_none (code : Nat) (hc : code ≠ 404) :
    get_service_url HttpResult.exn = Except.ok none
    ∧ get_service_url_sync HttpResult.exn = Except.ok none
    ∧ get_service_url (HttpResult.status 404) = Except.ok none
    ∧ get_service_url_sync (HttpResult.status 404) = Except.ok none
    ∧ get_service_url (HttpResult.status code) = Except.error code
    ∧ get_service_url_sync (HttpResult.status code) = Except.error code := by
  refine ⟨rfl, rfl, rfl, rfl, ?_, ?_⟩ <;> simp [get_service_url, get_service_url_sync, hc]

/-- Closed instance of the C1 theorem at status code 500. -/
theorem discovery_unavailable_to_none_witness :
    (500 : Nat) ≠ 404 ∧ get_service_url (HttpResult.status 500) = Except.error 500 :=
  ⟨by decide, (discovery_unavailable_to_none 500 (by decide)).2.2.2.2.1⟩

/-- C2 counterexample: the claim says no validation of `base_url` is
performed, but the request model declares `base_url : HttpUrl`
(app.py line 41), so a non-HTTP url such as `ftp://example.com` is rejected
with a validation error and registration does not succeed for it. -/
theorem register_rejects_invalid_url :
    isValidHttpUrl badUrl = false
    ∧ register_endpoint demoState usersKey badUrl 0 = Except.error () := by
  exact ⟨by decide, rfl⟩

/-- C2 (amended): `base_url` is validated by the pydantic `HttpUrl` request
model; for every service name and every `base_url` that passes it,
registration always succeeds: a fresh `instance_id` is allocated and a new
instance with `last_heartbeat = now` is appended to the service's sequence,
creating the sequence if absent, leaving every other service unchanged. -/
theorem register_succeeds_on_valid_url (st : RegistryState) (name url : String)
    (now : Time) (hv : isValidHttpUrl url = true) (hb : IdsBounded st) :
    register_endpoint st name url now = Except.ok (register_service st name url now)
    ∧ (register_service st name url now).2.instance_id ∉ idsOf st.registry
    ∧ (register_service st name url now).2.last_heartbeat = now
    ∧ (register_service st name url now).2.base_url = url
    ∧ (register_service st name url now).2.service_name = name
    ∧ lookupReg ((register_service st name url now).1).registry name =
        some ((lookupReg st.registry name).getD [] ++ [(register_service st name url now).2])
    ∧ ∀ s : String, s ≠ name →
        lookupReg ((register_service st name url now).1).registry s =
          lookupReg st.registry s := by
  refine ⟨?_, ?_, rfl, rfl, rfl, ?_, ?_⟩
  · simp [register_endpoint, hv]
  · intro hmem
    have hlt := hb _ hmem
    simp only [register_service, mkInstance] at hlt
    omega
  · exact lookupReg_addInstance_self st.registry name _
  · intro s hs
    exact lookupReg_addInstance_other st.registry name s _ hs

/-- Closed instance of the C2 theorem at a concrete valid registration. -/
theorem register_succeeds_on_valid_url_witness :
    isValidHttpUrl urlB = true
    ∧ register_endpoint demoState usersKey urlB 5 =
        Except.ok (register_service demoState usersKey urlB 5)
    ∧ (register_service demoState usersKey urlB 5).2.instance_id ∉ idsOf demoState.registry := by
  have h := register_succeeds_on_valid_url demoState usersKey urlB 5 (by decide)
    (by unfold IdsBounded; decide)
  exact ⟨by decide, h.1, h.2.1⟩

/-- C3: `listActive` returns, in insertion order, exactly the currently
active instances of the queried service; it fails with 404 iff the service
name is unknown or none of its instances is active; and it leaves the
stored registry unchanged (stale instances stay resident in storage). -/
theorem listActive_spec (reg : Registry) (name : String) (now : Time) :
    (get_service_instances reg name now).2 = reg
    ∧ (∀ l, (get_service_instances reg name now).1 = Except.ok l →
        ∃ insts, lookupReg reg name = some insts ∧ List.Sublist l insts ∧
          ∀ inst, inst ∈ l ↔
            (inst ∈ insts ∧ now - inst.last_heartbeat < HEARTBEAT_TIMEOUT))
    ∧ ((get_service_instances reg name now).1 = Except.error () ↔
        lookupReg reg name = none ∨
          ∃ insts, lookupReg reg name = some insts ∧
            ∀ inst ∈ insts, ¬ (now - inst.last_heartbeat < HEARTBEAT_TIMEOUT)) := by
  refine ⟨?_, ?_, ?_⟩
  · unfold get_service_instances
    cases lookupReg reg name with
    | none => rfl
    | some insts =>
      rcases Bool.eq_false_or_eq_true ((insts.filter (isActive now)).isEmpty) with hf | hf <;>
        simp [hf]
  · intro l hl
    unfold get_service_instances at hl
    cases hlk : lookupReg reg name with
    | none => rw [hlk] at hl; cases hl
    | some insts =>
      rw [hlk] at hl
      rcases Bool.eq_false_or_eq_true ((insts.filter (isActive now)).isEmpty) with hf | hf <;>
        simp only [hf, Bool.false_eq_true, if_false, if_true, ite_true, ite_false] at hl
      · cases hl
      · have hleq : l = insts.filter (isActive now) := by cases hl; rfl
        subst hleq
        refine ⟨insts, rfl, List.filter_sublist insts, ?_⟩
        intro inst
        rw [List.mem_filter, isActive_iff]
  · unfold get_service_instances
    cases hlk : lookupReg reg name with
    | none => simp
    | some insts =>
      rcases Bool.eq_false_or_eq_true ((insts.filter (isActive now)).isEmpty) with hf | hf
      · have hstale : ∀ inst ∈ insts, ¬ (now - inst.last_heartbeat < HEARTBEAT_TIMEOUT) := by
          intro inst hi hact
          have hmem : inst ∈ insts.filter (isActive now) :=
            List.mem_filter.2 ⟨hi, (isActive_iff now inst).2 hact⟩
          rw [List.isEmpty_iff.1 hf] at hmem
          cases hmem
        simp only [hf, ite_true, if_true]
        constructor
        · intro _
          exact Or.inr ⟨insts, rfl, hstale⟩
        · intro _
          trivial
      · simp only [hf, Bool.false_eq_true, if_false, ite_false]
        constructor
        · intro hcontra
          cases hcontra
        · rintro (hnone | ⟨insts2, hs2, hstale⟩)
          · cases hnone
          · have hobtain : ∃ inst, inst ∈ insts.filter (isActive now) := by
              cases hne : insts.filter (isActive now) with
              | nil => rw [hne] at hf; simp at hf
              | cons a t => exact ⟨a, List.mem_cons_self _ _⟩
            obtain ⟨inst, hmem⟩ := hobtain
            have hin := List.mem_filter.1 hmem
            have hieq : insts2 = insts := by cases hs2; rfl
            subst hieq
            exact absurd ((isActive_iff now inst).1 hin.2) (hstale inst hin.1)

/-- Closed instance of the C3 theorem on the demo registry. -/
theorem listActive_spec_witness :
    (get_service_instances demoReg usersKey 0).2 = demoReg
    ∧ ∃ insts, lookupReg demoReg usersKey = some insts ∧
        List.Sublist [demoInst 1 0] insts ∧
        ∀ inst, inst ∈ [demoInst 1 0] ↔
          (inst ∈ insts ∧ (0 : Time) - inst.last_heartbeat < HEARTBEAT_TIMEOUT) := by
  refine ⟨(listActive_spec demoReg usersKey 0).1, ?_⟩
  exact (listActive_spec demoReg usersKey 0).2.1 [demoInst 1 0] rfl

/-- C4: one sweeper pass keeps, for every service, exactly its fresh
instances (dropping precisely those with `now - last_heartbeat ≥
HEARTBEAT_TIMEOUT`) and removes a service key iff no fresh instance
remains; an instance that is stale at the time of the pass is permanently
absent from internal storage afterwards, whatever operations follow. -/
theorem sweeper_pass_spec (reg : Registry) (now : Time) (h : KeysNodup reg) :
    (∀ s, lookupReg (cleanup_stale_instances now reg) s =
        match lookupReg reg s with
        | none => none
        | some insts =>
          if (insts.filter (isActive now)).isEmpty then none
          else some (insts.filter (isActive now)))
    ∧ (∀ inst ∈ allInstances (cleanup_stale_instances now reg),
        now - inst.last_heartbeat < HEARTBEAT_TIMEOUT)
    ∧ (∀ (n : Nat) (ops : List Op) (inst : ServiceInstance),
        (idsOf reg).Nodup → (∀ i ∈ idsOf reg, i < n) →
        inst ∈ allInstances reg →
        ¬ (now - inst.last_heartbeat < HEARTBEAT_TIMEOUT) →
        inst.instance_id ∉
          idsOf (runOps { registry := cleanup_stale_instances now reg, nextId := n }
            ops).registry) := by
  refine ⟨lookupReg_cleanup now reg h, ?_, ?_⟩
  · intro inst hi
    exact (isActive_iff now inst).1 (allInstances_cleanup_active now reg inst hi)
  · intro n ops inst hnodup hbound hmem hstale
    have hid : inst.instance_id ∈ idsOf reg := by
      rw [idsOf_eq_map_allInstances]
      exact List.mem_map_of_mem _ hmem
    have hlt := hbound _ hid
    have habs : inst.instance_id ∉ idsOf (cleanup_stale_instances now reg) := by
      intro hm
      rw [idsOf_eq_map_allInstances] at hm
      obtain ⟨inst2, hm2, he⟩ := List.mem_map.1 hm
      have hact := (isActive_iff now inst2).1 (allInstances_cleanup_active now reg inst2 hm2)
      have hsub := allInstances_cleanup_subset now reg inst2 hm2
      have hne2 : inst ≠ inst2 := by
        intro heq
        rw [heq] at hstale
        exact hstale hact
      rw [idsOf_eq_map_allInstances] at hnodup
      exact hne2 (List.inj_on_of_nodup_map hnodup hmem hsub he.symm)
    exact absent_runOps ops _ inst.instance_id habs hlt

/-- Closed instance of the C4 theorem: sweeping the demo registry at a late
time evicts the stale instance and removes the service key. -/
theorem sweeper_pass_spec_witness :
    KeysNodup demoReg
    ∧ lookupReg (cleanup_stale_instances 100 demoReg) usersKey = none := by
  have hk : KeysNodup demoReg := by unfold KeysNodup; decide
  refine ⟨hk, ?_⟩
  rw [(sweeper_pass_spec demoReg 100 hk).1 usersKey]
  rfl

/-- C5: in the fresh-id model of `uuid4`, every trace of operations hands
out pairwise distinct instance ids (no reuse for the registry lifetime);
heartbeat and deregister on an id that is present nowhere both report 404;
and after a deregister of `id`, a second deregister of `id` reports 404 and
no later listing ever includes `id`. -/
theorem instance_id_lifecycle :
    (∀ (st : RegistryState) (ops : List Op), (issuedIds st ops).Nodup)
    ∧ (∀ (reg : Registry) (id : Nat) (now : Time), id ∉ idsOf reg →
        (heartbeat id now reg).2 = false ∧ (deregister_service id reg).2 = false)
    ∧ (∀ (st : RegistryState) (id : Nat), (idsOf st.registry).Nodup → id < st.nextId →
        (deregister_service id (deregister_service id st.registry).1).2 = false
        ∧ (∀ (ops : List Op) (name : String) (now : Time) (l : List ServiceInstance),
            (get_service_instances
                (runOps { registry := (deregister_service id st.registry).1,
                          nextId := st.nextId } ops).registry name now).1 = Except.ok l →
            ∀ inst ∈ l, inst.instance_id ≠ id)) := by
  refine ⟨fun st ops => issuedIds_nodup ops st, ?_, ?_⟩
  · intro reg id now h
    constructor
    · rcases Bool.eq_false_or_eq_true (heartbeat id now reg).2 with hb | hb
      · exact absurd ((heartbeat_found_iff id now reg).1 hb) h
      · exact hb
    · rcases Bool.eq_false_or_eq_true (deregister_service id reg).2 with hb | hb
      · exact absurd ((deregister_found_iff id reg).1 hb) h
      · exact hb
  · intro st id hnodup hlt
    have habs : id ∉ idsOf (deregister_service id st.registry).1 :=
      deregister_removes id st.registry hnodup
    constructor
    · rcases Bool.eq_false_or_eq_true
          (deregister_service id (deregister_service id st.registry).1).2 with hb | hb
      · exact absurd ((deregister_found_iff id _).1 hb) habs
      · exact hb
    · intro ops name now l hok inst hmem heq
      have hgone := absent_runOps ops
        { registry := (deregister_service id st.registry).1, nextId := st.nextId }
        id habs hlt
      exact hgone (heq ▸ listing_ids_mem _ name now l hok inst hmem)

/-- Closed instance of the C5 theorem on the demo state. -/
theorem instance_id_lifecycle_witness :
    ((idsOf demoState.registry).Nodup ∧ (1 : Nat) < demoState.nextId)
    ∧ (issuedIds demoState
        [Op.registerOp usersKey urlB 0, Op.registerOp pollsKey urlB 0]).Nodup
    ∧ (heartbeat 7 0 demoReg).2 = false
    ∧ (deregister_service 1 (deregister_service 1 demoState.registry).1).2 = false := by
  have hnodup : (idsOf demoState.registry).Nodup := by decide
  have hlt : (1 : Nat) < demoState.nextId := by decide
  refine ⟨⟨hnodup, hlt⟩, instance_id_lifecycle.1 demoState _, ?_, ?_⟩
  · exact (instance_id_lifecycle.2.1 demoReg 7 0 (by decide)).1
  · exact (instance_id_lifecycle.2.2 demoState 1 hnodup hlt).1

/-- C6: immediately after a registration, a query for the registered service
succeeds and its result includes an instance carrying the registered
`base_url` and the `instance_id` that the registration returned. -/
theorem register_immediately_visible (st : RegistryState) (name url : String) (now : Time) :
    ∃ l, (get_service_instances ((register_service st name url now).1).registry name now).1
        = Except.ok l
      ∧ ∃ inst, inst ∈ l ∧ inst.base_url = url
          ∧ inst.instance_id = (register_service st name url now).2.instance_id := by
  have hlook : lookupReg ((register_service st name url now).1).registry name =
      some ((lookupReg st.registry name).getD [] ++ [mkInstance st.nextId name url now]) :=
    lookupReg_addInstance_self st.registry name _
  have hact : isActive now (mkInstance st.nextId name url now) = true := by
    rw [isActive_iff]
    show now - now < (30 : Int)
    norm_num
  have hfil : (((lookupReg st.registry name).getD []) ++
        [mkInstance st.nextId name url now]).filter (isActive now)
      = ((lookupReg st.registry name).getD []).filter (isActive now) ++
          [mkInstance st.nextId name url now] := by
    rw [List.filter_append]
    simp [hact]
  refine ⟨((lookupReg st.registry name).getD []).filter (isActive now) ++
      [mkInstance st.nextId name url now], ?_, ?_⟩
  · simp only [get_service_instances, hlook, hfil, isEmpty_append_singleton,
      Bool.false_eq_true, if_false, ite_false]
  · exact ⟨mkInstance st.nextId name url now, by simp, rfl, rfl⟩

/-- C7: resolution returns exactly the `base_url` of the first element, in
insertion order, of the active-instance sequence, and `none` when the
service is unknown or no instance is active (the listing's 404). -/
theorem resolve_first_active (reg : Registry) (name : String) (now : Time) :
    resolve reg name now =
      Except.ok
        (match lookupReg reg name with
         | none => none
         | some insts =>
           ((insts.filter (isActive now)).head?).map (fun inst => inst.base_url)) := by
  unfold resolve registryHttpResponse
  rw [get_service_instances_fst]
  cases hl : lookupReg reg name with
  | none => rfl
  | some insts =>
    rcases Bool.eq_false_or_eq_true ((insts.filter (isActive now)).isEmpty) with hf | hf
    · have hnil := List.isEmpty_iff.1 hf
      simp [get_service_url, hf, hnil]
    · have hcons : ∃ a t, insts.filter (isActive now) = a :: t := by
        cases hc : insts.filter (isActive now) with
        | nil => rw [hc] at hf; simp at hf
        | cons a t => exact ⟨a, t, rfl⟩
      obtain ⟨a, t, hcons⟩ := hcons
      simp [get_service_url, hf, hcons]

/-- C8: the invariant that no service name is present in the map with an
empty instance sequence is preserved by every operation: register,
heartbeat, deregister, and a sweeper pass. -/
theorem no_empty_sequence_invariant (st : RegistryState) (op : Op)
    (h : NoEmptySeq st.registry) : NoEmptySeq (applyOp st op).registry := by
  cases op with
  | registerOp name url now => exact noEmpty_addInstance st.registry name _ h
  | heartbeatOp id now => exact noEmpty_heartbeat id now st.registry h
  | deregisterOp id => exact noEmpty_deregister id st.registry h
  | sweepOp now => exact noEmpty_cleanup now st.registry

/-- Closed instance of the C8 theorem on the demo state. -/
theorem no_empty_sequence_invariant_witness :
    NoEmptySeq demoState.registry
    ∧ NoEmptySeq (applyOp demoState (Op.registerOp pollsKey urlB 1)).registry := by
  have hne : NoEmptySeq demoState.registry := by unfold NoEmptySeq; decide
  exact ⟨hne, no_empty_sequence_invariant demoState (Op.registerOp pollsKey urlB 1) hne⟩

/-- C10 counterexample: the claim quantifies over every registry state, but
on a state that holds a service key with an empty instance sequence,
`deregister` of an id that is present nowhere still mutates the map: it
deletes the empty key while reporting 404. -/
theorem deregister_mutates_on_empty_sequence :
    (7 : Nat) ∉ idsOf emptySeqReg
    ∧ (deregister_service 7 emptySeqReg).2 = false
    ∧ (deregister_service 7 emptySeqReg).1 ≠ emptySeqReg := by
  refine ⟨by decide, rfl, by decide⟩

/-- C10 (amended): on every registry state in which no service has an empty
instance sequence (an invariant of all reachable states), a `heartbeat` or
`deregister` call for an id that is present nowhere reports 404 and leaves
the whole registry map, with every instance's fields, unchanged. -/
theorem notfound_leaves_state_unchanged (reg : Registry) (id : Nat) (now : Time)
    (hne : NoEmptySeq reg) (h : id ∉ idsOf reg) :
    heartbeat id now reg = (reg, false) ∧ deregister_service id reg = (reg, false) :=
  ⟨heartbeat_absent id now reg h, deregister_absent id reg hne h⟩

/-- Closed instance of the C10 theorem on the demo registry. -/
theorem notfound_leaves_state_unchanged_witness :
    NoEmptySeq demoReg
    ∧ (7 : Nat) ∉ idsOf demoReg
    ∧ heartbeat 7 3 demoReg = (demoReg, false)
    ∧ deregister_service 7 demoReg = (demoReg, false) := by
  have hne : NoEmptySeq demoReg := by unfold NoEmptySeq; decide
  have habs : (7 : Nat) ∉ idsOf demoReg := by decide
  have h := notfound_leaves_state_unchanged demoReg 7 3 hne habs
  exact ⟨hne, habs, h.1, h.2⟩

end Microblog.Registry
